import Mathlib

/-
Verification of the BlobFS core (src/python/blobfs/impl.py): the blob
compiler (`BlobCompiler.store_data`, `store_compressed_data`,
`create_entry`, `compile`) and the blob loader (`BlobLoader.load_string`,
`load_entry`, top-level `load`).

Modelling conventions:
- bytes are `Nat` values < 256; a blob is a `List Nat`;
- Python `str` values (names) are lists of Unicode code points (`List Nat`);
  `bytes(name, "utf-8")` is `utf8EncodeList`;
- `io.BytesIO` state is the explicit record `St` (buffer plus the
  content-address cache dict, an insertion-ordered association list);
- `zlib.compress` is an external library call, so the compiler is
  parametrised by the compression function `cfn`;
- CPython's bounded interpreter recursion (RecursionError) is modelled by
  the explicit `fuel` argument of `loadEntry`; the default limit is
  `pyRecursionLimit`;
- `BlobLoader.load_string` loops forever when the name region has no 0x00
  terminator (`read(1)` returns `b''` at EOF, which is never `b'\0'`);
  that infinite loop is modelled by the dedicated marker `LErr.divergence`;
- `BlobLoader.load_entry` refers to `gzip.GzipFile` on a compressed entry,
  but impl.py never imports `gzip`, so CPython raises `NameError` there;
  this is modelled by `LErr.nameError`;
- a `struct.pack`/`struct.unpack` failure (short data or an integer that
  does not fit the format) is `struct.error`, modelled by `.structError`.
-/

namespace BlobFS

/-- PTR_SIZE from impl.py. -/
def PTR_SIZE : Nat := 4

/-- ENTRY_SIZE from impl.py: 1 + 2 * PTR_SIZE. -/
def ENTRY_SIZE : Nat := 1 + 2 * PTR_SIZE

/-- DIRENTRY_SIZE from impl.py: PTR_SIZE + ENTRY_SIZE. -/
def DIRENTRY_SIZE : Nat := PTR_SIZE + ENTRY_SIZE

/-- InodeFlags.IS_DIR. -/
def IS_DIR : Nat := 1

/-- InodeFlags.DEFLATE (the COMPRESSED bit). -/
def DEFLATE : Nat := 2

/-- Input trees of `compile`: a file is an opaque byte sequence, a
directory is a Python dict mapping a name (a `str`, i.e. a sequence of
Unicode code points) to a subtree.  The dict is modelled as an
insertion-ordered association list; dict validity (distinct keys) is a
hypothesis of the theorems that need it.  The `str`-payload convenience
branch of `create_entry` (a `str` file is normalised to its UTF-8 bytes)
is not needed by any claim and is omitted. -/
inductive Tree where
  | file : List Nat → Tree
  | dir : List (List Nat × Tree) → Tree

/-- Compiler state: the `io.BytesIO` buffer and the content-address cache
`self.cache` (a Python dict from byte string to offset, insertion
ordered). -/
structure St where
  blob : List Nat
  cache : List (List Nat × Nat)

/-- Python dict lookup `data in self.cache` / `self.cache[data]`. -/
def lookupC : List (List Nat × Nat) → List Nat → Option Nat
  | [], _ => none
  | (k, v) :: rest, d => if k = d then some v else lookupC rest d

/-- BlobCompiler.store_data: if `data` is not cached, record the current
end of the buffer as its offset and append it; return the cached
offset. -/
def storeData (d : List Nat) (s : St) : Nat × St :=
  match lookupC s.cache d with
  | some off => (off, s)
  | none => (s.blob.length, ⟨s.blob ++ d, s.cache ++ [(d, s.blob.length)]⟩)

/-- BlobCompiler.store_compressed_data: compress `data` with the external
codec `cfn` (zlib.compress in the source); if compression is enabled and
the compressed form is strictly shorter, store it and return the DEFLATE
flag, otherwise store the raw bytes with flags 0. -/
def storeCompressedData (cp : Bool) (cfn : List Nat → List Nat)
    (d : List Nat) (s : St) : Nat × Nat × St :=
  let zdata := cfn d
  if cp = true ∧ zdata.length < d.length then
    ((storeData zdata s).1, DEFLATE, (storeData zdata s).2)
  else
    ((storeData d s).1, 0, (storeData d s).2)

/-- Errors the compiler can raise: `struct.error` from `struct.pack` when
a value does not fit its format code. -/
inductive CompErr where
  | structError

/-- Little-endian bytes of a 32-bit value (the payload of
`struct.pack("<I", n)`). -/
def le32Bytes (n : Nat) : List Nat :=
  [n % 256, n / 256 % 256, n / 65536 % 256, n / 16777216 % 256]

/-- struct.pack("<I", n): fails with struct.error unless `n < 2^32`. -/
def pack32 (n : Nat) : Except CompErr (List Nat) :=
  if n < 4294967296 then .ok (le32Bytes n) else .error .structError

/-- struct.pack("<B", n): fails with struct.error unless `n < 256`. -/
def pack8 (n : Nat) : Except CompErr (List Nat) :=
  if n < 256 then .ok [n] else .error .structError

/-- struct.pack("<BII", flags, size, ptr): the 9-byte entry header. -/
def packHdr (flags size ptr : Nat) : Except CompErr (List Nat) :=
  match pack8 flags with
  | .error e => .error e
  | .ok f =>
      match pack32 size with
      | .error e => .error e
      | .ok sz =>
          match pack32 ptr with
          | .error e => .error e
          | .ok pt => .ok (f ++ sz ++ pt)

/-- Standard UTF-8 encoding of one code point, as Python's
`bytes(name, "utf-8")` produces for each character.  (Python would raise
on surrogate code points; the encoding is modelled as total, and no claim
depends on surrogate names.) -/
def utf8EncodeChar (c : Nat) : List Nat :=
  if c < 128 then [c]
  else if c < 2048 then [192 + c / 64, 128 + c % 64]
  else if c < 65536 then [224 + c / 4096, 128 + c / 64 % 64, 128 + c % 64]
  else [240 + c / 262144, 128 + c / 4096 % 64, 128 + c / 64 % 64, 128 + c % 64]

/-- UTF-8 encoding of a whole name. -/
def utf8EncodeList (n : List Nat) : List Nat :=
  (n.map utf8EncodeChar).flatten

/-- Python `<` on two sequences of naturals (byte strings or `str` code
point sequences): strict lexicographic order. -/
def lexLt : List Nat → List Nat → Bool
  | [], [] => false
  | [], _ :: _ => true
  | _ :: _, [] => false
  | a :: as, b :: bs => if a < b then true else if a = b then lexLt as bs else false

/-- Stable insertion of a child into an already sorted list of children,
keyed on the name exactly as Python's `sorted(entry.items())` keys on the
tuple (with dict-distinct keys the tree component is never compared). -/
def insertC (x : List Nat × Tree) : List (List Nat × Tree) → List (List Nat × Tree)
  | [] => [x]
  | y :: ys => if lexLt x.1 y.1 then x :: y :: ys else y :: insertC x ys

/-- Python's `sorted(entry.items())`: the children of a directory in
ascending name order. -/
def sortChildren : List (List Nat × Tree) → List (List Nat × Tree)
  | [] => []
  | x :: xs => insertC x (sortChildren xs)

theorem sizeOf_insertC (x : List Nat × Tree) (l : List (List Nat × Tree)) :
    sizeOf (insertC x l) = 1 + sizeOf x + sizeOf l := by
  induction l with
  | nil => simp [insertC]
  | cons y ys ih =>
      simp only [insertC]
      split
      · simp
      · simp [ih]; omega

theorem sizeOf_sortChildren (l : List (List Nat × Tree)) :
    sizeOf (sortChildren l) = sizeOf l := by
  induction l with
  | nil => simp [sortChildren]
  | cons x xs ih => simp [sortChildren, sizeOf_insertC, ih]

mutual

/-- BlobCompiler.create_entry: serialize one subtree and return its
9-byte header, threading the buffer/cache state.  A directory stores each
child's null-terminated name and inline header (in ascending name order)
into the child table, stores the table, and packs `(IS_DIR, len, ptr)`; a
file stores its (possibly compressed) payload and packs
`(flags, len, ptr)`. -/
def createEntry (cp : Bool) (cfn : List Nat → List Nat) :
    Tree → St → Except CompErr (List Nat × St)
  | Tree.file d, s =>
      match packHdr (storeCompressedData cp cfn d s).2.1 d.length
          (storeCompressedData cp cfn d s).1 with
      | .error e => .error e
      | .ok h => .ok (h, (storeCompressedData cp cfn d s).2.2)
  | Tree.dir cs, s =>
      match createTable cp cfn (sortChildren cs) s with
      | .error e => .error e
      | .ok (tbl, s1) =>
          match packHdr IS_DIR cs.length (storeData tbl s1).1 with
          | .error e => .error e
          | .ok h => .ok (h, (storeData tbl s1).2)
termination_by t _ => sizeOf t
decreasing_by
  simp only [sizeOf_sortChildren]
  simp

/-- The loop body of `create_entry`'s directory branch: build the child
table record by record (store the name, pack its offset, recursively
create the child entry). -/
def createTable (cp : Bool) (cfn : List Nat → List Nat) :
    List (List Nat × Tree) → St → Except CompErr (List Nat × St)
  | [], s => .ok ([], s)
  | (n, t) :: rest, s =>
      match pack32 (storeData (utf8EncodeList n ++ [0]) s).1 with
      | .error e => .error e
      | .ok np =>
          match createEntry cp cfn t (storeData (utf8EncodeList n ++ [0]) s).2 with
          | .error e => .error e
          | .ok (hdr, s2) =>
              match createTable cp cfn rest s2 with
              | .error e => .error e
              | .ok (tl, s3) => .ok (np ++ hdr ++ tl, s3)
termination_by l _ => sizeOf l
decreasing_by
  all_goals simp
  all_goals omega

end

/-- The nine placeholder bytes `b"x" * ENTRY_SIZE` reserved for the root
header. -/
def placeholder : List Nat := List.replicate 9 120

/-- BlobCompiler.compile on a fresh compiler (as the top-level
`compile(data, compress)` uses it): reserve the root header slot, create
the root entry, patch the header at offset 0, and return the buffer
contents together with the final compiler state. -/
def compileRun (t : Tree) (cp : Bool) (cfn : List Nat → List Nat) :
    Except CompErr (List Nat × St) :=
  match createEntry cp cfn t ⟨placeholder, []⟩ with
  | .error e => .error e
  | .ok (hdr, s1) => .ok (hdr ++ s1.blob.drop 9, s1)

/-- Top-level `compile(data, compress)`: the emitted blob. -/
def compile (t : Tree) (cp : Bool) (cfn : List Nat → List Nat) :
    Except CompErr (List Nat) :=
  (compileRun t cp cfn).map (·.1)

/-- Errors (and the non-termination marker) of the loader:
`structError` is `struct.error` raised by `struct.unpack` on short data;
`unicodeError` is `UnicodeDecodeError` from `str(ret, 'utf-8')`;
`nameError` is the `NameError` raised because impl.py uses
`gzip.GzipFile` without importing `gzip`;
`recursionError` is CPython's `RecursionError` stack guard;
`divergence` marks the infinite loop of `load_string` when the blob ends
before a 0x00 terminator (`read(1)` returns `b''` forever) — on such
inputs the Python function does not return at all. -/
inductive LErr where
  | structError
  | unicodeError
  | nameError
  | recursionError
  | divergence

/-- Read `n` bytes at offset `p`, as `seek(p); read(n)` does: returns the
available bytes, possibly fewer than `n`, without error. -/
def readAt (blob : List Nat) (p n : Nat) : List Nat :=
  (blob.drop p).take n

/-- struct.unpack("<I", b): the little-endian value of 4 bytes. -/
def parse32 (l : List Nat) : Nat :=
  l.getD 0 0 + 256 * l.getD 1 0 + 65536 * l.getD 2 0 + 16777216 * l.getD 3 0

/-- The byte-scanning loop of `load_string`: read one byte at a time
until a 0x00.  The fuel is the number of bytes left before the end of the
blob; when it runs out the Python loop never terminates (read(1) keeps
returning `b''`), which the marker `LErr.divergence` records. -/
def scanName (blob : List Nat) : Nat → Nat → List Nat → Except LErr (List Nat)
  | 0, _, _ => .error .divergence
  | k + 1, p, acc =>
      let c := blob.getD p 0
      if c = 0 then .ok acc else scanName blob k (p + 1) (acc ++ [c])

/-- Strict UTF-8 decoding, as Python's `str(b, 'utf-8')`: rejects
continuation-byte errors, overlong forms, surrogates and values above
0x10FFFF. -/
def utf8DecodeList : List Nat → Option (List Nat)
  | [] => some []
  | b0 :: rest =>
      if b0 < 128 then (utf8DecodeList rest).map (b0 :: ·)
      else if b0 < 194 then none
      else if b0 < 224 then
        match rest with
        | b1 :: r2 =>
            if 128 ≤ b1 ∧ b1 < 192 then
              (utf8DecodeList r2).map (((b0 - 192) * 64 + (b1 - 128)) :: ·)
            else none
        | [] => none
      else if b0 < 240 then
        match rest with
        | b1 :: b2 :: r3 =>
            let lo1 := if b0 = 224 then 160 else 128
            let hi1 := if b0 = 237 then 160 else 192
            if lo1 ≤ b1 ∧ b1 < hi1 ∧ 128 ≤ b2 ∧ b2 < 192 then
              (utf8DecodeList r3).map
                (((b0 - 224) * 4096 + (b1 - 128) * 64 + (b2 - 128)) :: ·)
            else none
        | _ => none
      else if b0 < 245 then
        match rest with
        | b1 :: b2 :: b3 :: r4 =>
            let lo1 := if b0 = 240 then 144 else 128
            let hi1 := if b0 = 244 then 144 else 192
            if lo1 ≤ b1 ∧ b1 < hi1 ∧ 128 ≤ b2 ∧ b2 < 192 ∧ 128 ≤ b3 ∧ b3 < 192 then
              (utf8DecodeList r4).map
                (((b0 - 240) * 262144 + (b1 - 128) * 4096 + (b2 - 128) * 64 + (b3 - 128)) :: ·)
            else none
        | _ => none
      else none

/-- BlobLoader.load_string: scan bytes from `ptr` up to (not including) a
0x00 terminator and decode them as UTF-8. -/
def loadString (blob : List Nat) (p : Nat) : Except LErr (List Nat) :=
  match scanName blob (blob.length - p) p [] with
  | .error e => .error e
  | .ok bs =>
      match utf8DecodeList bs with
      | some s => .ok s
      | none => .error .unicodeError

/-- Python dict assignment `ret[name] = child`: replace in place if the
key is present, else append. -/
def dictInsert : List (List Nat × Tree) → List Nat → Tree → List (List Nat × Tree)
  | [], k, v => [(k, v)]
  | (k', v') :: rest, k, v =>
      if k' = k then (k', v) :: rest else (k', v') :: dictInsert rest k v

/-- The `for i in range(size)` loop of `load_entry`'s directory branch:
read the 4-byte name pointer of each 13-byte record, resolve the name,
recursively load the child entry at record offset + 4, and insert into
the result dict.  The child loader is `load_entry` one stack level
deeper. -/
def loadChildren (blob : List Nat) (childLoad : Nat → Except LErr Tree) :
    Nat → Nat → List (List Nat × Tree) → Except LErr (List (List Nat × Tree))
  | 0, _, acc => .ok acc
  | n + 1, p, acc =>
      let pd := readAt blob p 4
      if pd.length = 4 then
        match loadString blob (parse32 pd) with
        | .error e => .error e
        | .ok name =>
            match childLoad (p + PTR_SIZE) with
            | .error e => .error e
            | .ok child =>
                loadChildren blob childLoad n (p + DIRENTRY_SIZE)
                  (dictInsert acc name child)
      else .error .structError

/-- BlobLoader.load_entry: unpack the 9-byte header at `ptr` and produce
the entry.  `fuel` is the remaining CPython stack budget: each recursive
child call is one interpreter frame deeper, and exhausting the budget is
`RecursionError`.  A directory walks its child table; a file with the
DEFLATE bit reaches `gzip.GzipFile` — a `NameError` in impl.py, which
never imports `gzip`; a plain file returns `read(size)`, i.e. the
available bytes at `ptr`, silently short if the blob ends early. -/
def loadEntry (blob : List Nat) : Nat → Nat → Except LErr Tree
  | 0 => fun _ => .error .recursionError
  | fuel + 1 => fun ptr =>
      let data := readAt blob ptr ENTRY_SIZE
      if data.length = ENTRY_SIZE then
        let flags := data.getD 0 0
        let size := parse32 (readAt data 1 4)
        let dptr := parse32 (readAt data 5 4)
        if flags &&& IS_DIR ≠ 0 then
          (loadChildren blob (loadEntry blob fuel) size dptr []).map Tree.dir
        else if flags &&& DEFLATE ≠ 0 then .error .nameError
        else .ok (Tree.file (readAt blob dptr size))
      else .error .structError

/-- CPython's default recursion limit (`sys.getrecursionlimit()`), the
stack budget available to `load`. -/
def pyRecursionLimit : Nat := 1000

/-- Top-level `load(blob)`: `BlobLoader(blob).root`, i.e. `load_entry(0)`
with a fresh interpreter stack. -/
def load (blob : List Nat) : Except LErr Tree :=
  loadEntry blob pyRecursionLimit 0

/-- The identity stand-in for the external compression codec, used in
concrete witnesses. -/
def cfnId : List Nat → List Nat := fun l => l

/-- A stand-in codec whose output is always empty (hence always strictly
shorter than a nonempty input), used to exercise the compressed path in
concrete witnesses. -/
def cfnEmpty : List Nat → List Nat := fun _ => []

/-- A stand-in codec whose output is the single byte 1, used to exercise
the compressed path in concrete witnesses. -/
def cfnOne : List Nat → List Nat := fun _ => [1]

/-- The tree Dir({"a": File(b"")}) of the spec's first concrete
scenario ("a" is code point 97). -/
def treeA : Tree := Tree.dir [([97], Tree.file [])]

/-- The blob impl.py emits for `treeA` with compress=false: root header
flags=1, size=1, ptr=11; the name bytes "a\0" at offset 9; the 13-byte
child record at offset 11 (name_ptr=9, inline child header flags=0,
size=0, ptr=11). -/
def blobA : List Nat :=
  [1, 1, 0, 0, 0, 11, 0, 0, 0, 97, 0, 9, 0, 0, 0, 0, 0, 0, 0, 0, 11, 0, 0, 0]

/-- The final compiler state for `treeA`: the pre-patch buffer (the nine
placeholder bytes still at the front) and the content cache holding the
name string, the empty payload and the child table. -/
def stA : St :=
  ⟨[120, 120, 120, 120, 120, 120, 120, 120, 120, 97, 0, 9, 0, 0, 0, 0, 0, 0, 0, 0, 11, 0, 0, 0],
   [([97, 0], 9), ([], 11), ([9, 0, 0, 0, 0, 0, 0, 0, 0, 11, 0, 0, 0], 11)]⟩

/-- A tree whose single child name is the code point sequence [0], i.e. a
Python name "\x00" with an embedded null. -/
def treeNul : Tree := Tree.dir [([0], Tree.file [])]

/-- The blob impl.py emits for `treeNul`: the name is stored as its UTF-8
byte 0x00 followed by the 0x00 terminator, with no validation. -/
def blobNul : List Nat :=
  [1, 1, 0, 0, 0, 11, 0, 0, 0, 0, 0, 9, 0, 0, 0, 0, 0, 0, 0, 0, 11, 0, 0, 0]

/-- A 22-byte blob whose root is a directory with one child whose name
pointer (22) is the end of the blob, so the name scan starts past the
last byte and never sees a 0x00 terminator. -/
def blobNoTerm : List Nat :=
  [1, 1, 0, 0, 0, 9, 0, 0, 0, 22, 0, 0, 0, 0, 0, 0, 0, 0, 0, 0, 0, 0]

/-- A 22-byte blob whose root directory's single child record carries an
inline header identical to the root header, so the loader recurses into
the same child table forever (name_ptr=4 points at a zero byte, giving
the empty name). -/
def selfRefBlob : List Nat :=
  [1, 1, 0, 0, 0, 9, 0, 0, 0, 4, 0, 0, 0, 1, 1, 0, 0, 0, 9, 0, 0, 0]

/-- A 9-byte blob declaring an uncompressed file of size 5 at offset 9:
every data byte lies beyond the end of the blob. -/
def blobShortFile : List Nat := [0, 5, 0, 0, 0, 9, 0, 0, 0]

/-- A 9-byte blob whose entry header has only the reserved flag bit 2
set (flags=4), size=0, ptr=9. -/
def blobFlag4 : List Nat := [4, 0, 0, 0, 0, 9, 0, 0, 0]

/-- An 8-byte input, one byte short of a full entry header. -/
def blobEight : List Nat := [0, 0, 0, 0, 0, 0, 0, 0]

/-- A compiler state as it stands right after `store_data(b"\x05\x06")`
on a fresh compiler: used to witness that a second store of the same
bytes is a pure cache hit. -/
def stDup : St := ⟨placeholder ++ [5, 6], [([5, 6], 9)]⟩

/-- A raw (uncompressed, flags byte `f`) single-file blob: header at
offset 0, payload at offset 9. -/
def rawFileBlob (f : Nat) (payload : List Nat) : List Nat :=
  [f] ++ le32Bytes payload.length ++ le32Bytes 9 ++ payload

/-- The compiler-state invariant: the buffer still contains the reserved
root-header region, and every cache entry records the offset at which its
byte string actually sits in the buffer, always at offset 9 or later. -/
def Inv (s : St) : Prop :=
  9 ≤ s.blob.length ∧
  ∀ d off, lookupC s.cache d = some off →
    9 ≤ off ∧ off + d.length ≤ s.blob.length ∧ readAt s.blob off d.length = d

/-- Membership of a name in a list of names. -/
def keyIn (k : List Nat) : List (List Nat) → Bool
  | [] => false
  | x :: xs => if x = k then true else keyIn k xs

/-- All-pairs distinctness of a list of names (dict keys are distinct by
construction). -/
def distinctKeys : List (List Nat) → Bool
  | [] => true
  | k :: rest => !keyIn k rest && distinctKeys rest

/-- Strict ascending byte-lexicographic order of consecutive elements. -/
def sortedStrict : List (List Nat) → Bool
  | [] => true
  | [_] => true
  | a :: b :: t => lexLt a b && sortedStrict (b :: t)

theorem lexLt_irrefl : ∀ a, lexLt a a = false
  | [] => rfl
  | x :: xs => by simp [lexLt, lexLt_irrefl xs]

theorem lexLt_asymm : ∀ a b, lexLt a b = true → lexLt b a = false
  | [], [] => by simp [lexLt]
  | [], _ :: _ => by simp [lexLt]
  | _ :: _, [] => by simp [lexLt]
  | x :: xs, y :: ys => by
      simp only [lexLt]
      intro h
      split at h
      · rename_i hlt
        rw [if_neg (by omega), if_neg (by omega)]
      · split at h
        · rename_i hxy heq
          subst heq
          rw [if_neg (by omega), if_pos rfl]
          exact lexLt_asymm xs ys h
        · cases h

theorem lexLt_trans : ∀ a b c, lexLt a b = true → lexLt b c = true →
    lexLt a c = true
  | [], [], _ => by simp [lexLt]
  | [], _ :: _, [] => by simp [lexLt]
  | [], _ :: _, _ :: _ => by simp [lexLt]
  | _ :: _, [], _ => by simp [lexLt]
  | _ :: _, _ :: _, [] => by simp [lexLt]
  | x :: xs, y :: ys, z :: zs => by
      intro h1 h2
      simp only [lexLt] at h1 h2 ⊢
      split at h1
      · rename_i hxy
        split at h2
        · rename_i hyz
          rw [if_pos (by omega)]
        · split at h2
          · rename_i _ hyz
            rw [if_pos (by omega)]
          · cases h2
      · split at h1
        · rename_i hxy heq
          split at h2
          · rename_i hyz
            rw [if_pos (by omega)]
          · split at h2
            · rename_i _ heq2
              rw [if_neg (by omega), if_pos (by omega)]
              exact lexLt_trans xs ys zs h1 h2
            · cases h2
        · cases h1

theorem lexLt_total : ∀ a b, a ≠ b → lexLt a b = true ∨ lexLt b a = true
  | [], [] => fun h => absurd rfl h
  | [], _ :: _ => fun _ => Or.inl (by simp [lexLt])
  | _ :: _, [] => fun _ => Or.inr (by simp [lexLt])
  | x :: xs, y :: ys => fun h => by
      by_cases hxy : x = y
      · subst hxy
        have hne : xs ≠ ys := fun he => h (by rw [he])
        rcases lexLt_total xs ys hne with h1 | h1
        · exact Or.inl (by simp [lexLt, h1])
        · exact Or.inr (by simp [lexLt, h1])
      · by_cases hlt : x < y
        · exact Or.inl (by simp only [lexLt]; rw [if_pos hlt])
        · refine Or.inr ?_
          simp only [lexLt]
          rw [if_pos (by omega)]

theorem lexLt_append_same : ∀ p a b, lexLt (p ++ a) (p ++ b) = lexLt a b
  | [], _, _ => rfl
  | x :: p, a, b => by
      simp only [List.cons_append, lexLt]
      rw [if_neg (Nat.lt_irrefl x)]
      simpa using lexLt_append_same p a b

theorem encChar_ne_nil (c : Nat) : utf8EncodeChar c ≠ [] := by
  unfold utf8EncodeChar
  split_ifs <;> simp

theorem encChar_lt (c1 c2 : Nat) (h : c1 < c2) (r1 r2 : List Nat) :
    lexLt (utf8EncodeChar c1 ++ r1) (utf8EncodeChar c2 ++ r2) = true := by
  unfold utf8EncodeChar
  split_ifs <;>
    simp only [List.cons_append, List.nil_append, lexLt] <;>
    split_ifs <;>
    first | rfl | omega

theorem encList_cons (c : Nat) (t : List Nat) :
    utf8EncodeList (c :: t) = utf8EncodeChar c ++ utf8EncodeList t := by
  simp [utf8EncodeList]

theorem encList_mono : ∀ a b, lexLt a b = true →
    lexLt (utf8EncodeList a) (utf8EncodeList b) = true
  | [], [] => by simp [lexLt]
  | [], c :: t => fun _ => by
      rw [encList_cons]
      cases hc : utf8EncodeChar c with
      | nil => exact absurd hc (encChar_ne_nil c)
      | cons x xs => simp [utf8EncodeList, lexLt]
  | _ :: _, [] => fun h => by simp [lexLt] at h
  | a :: as, b :: bs => fun h => by
      rw [encList_cons, encList_cons]
      simp only [lexLt] at h
      split at h
      · rename_i hab
        exact encChar_lt a b hab (utf8EncodeList as) (utf8EncodeList bs)
      · split at h
        · rename_i _ heq
          subst heq
          rw [lexLt_append_same]
          exact encList_mono as bs h
        · cases h

theorem insertC_mem : ∀ (a x : List Nat × Tree) (l : List (List Nat × Tree)),
    a ∈ insertC x l ↔ a = x ∨ a ∈ l
  | a, x, [] => by simp [insertC]
  | a, x, y :: ys => by
      simp only [insertC]
      split
      · simp [List.mem_cons]
      · simp only [List.mem_cons, insertC_mem a x ys]
        tauto

theorem insertC_perm (x : List Nat × Tree) :
    ∀ l, List.Perm (insertC x l) (x :: l)
  | [] => List.Perm.refl _
  | y :: ys => by
      simp only [insertC]
      split
      · exact List.Perm.refl _
      · exact List.Perm.trans ((insertC_perm x ys).cons y) (List.Perm.swap x y ys)

theorem sortChildren_perm : ∀ l, List.Perm (sortChildren l) l
  | [] => List.Perm.refl _
  | x :: xs =>
      List.Perm.trans (insertC_perm x (sortChildren xs))
        ((sortChildren_perm xs).cons x)

theorem insertC_pairwise (x : List Nat × Tree) :
    ∀ l, l.Pairwise (fun a b => lexLt b.1 a.1 = false) →
    (insertC x l).Pairwise (fun a b => lexLt b.1 a.1 = false)
  | [], _ => by simp [insertC]
  | y :: ys, h => by
      rw [List.pairwise_cons] at h
      obtain ⟨hy, hys⟩ := h
      simp only [insertC]
      split
      · rename_i hxy
        rw [List.pairwise_cons]
        refine ⟨?_, List.pairwise_cons.mpr ⟨hy, hys⟩⟩
        intro b hb
        rcases List.mem_cons.mp hb with rfl | hb2
        · exact lexLt_asymm _ _ hxy
        · cases hbx : lexLt b.1 x.1 with
          | false => rfl
          | true =>
              have h2 := lexLt_trans _ _ _ hbx hxy
              rw [hy b hb2] at h2
              exact absurd h2 Bool.false_ne_true
      · rename_i hxy
        rw [List.pairwise_cons]
        refine ⟨?_, insertC_pairwise x ys hys⟩
        intro b hb
        rcases (insertC_mem b x ys).mp hb with rfl | hb2
        · simpa using hxy
        · exact hy b hb2

theorem sortChildren_pairwise :
    ∀ l, (sortChildren l).Pairwise (fun a b => lexLt b.1 a.1 = false)
  | [] => by simp [sortChildren]
  | x :: xs => insertC_pairwise x _ (sortChildren_pairwise xs)

theorem keyIn_false : ∀ (k : List Nat) (l : List (List Nat)),
    keyIn k l = false → ∀ b ∈ l, k ≠ b
  | k, [], _ => by simp
  | k, x :: xs, h => by
      simp only [keyIn] at h
      split at h
      · cases h
      · rename_i hxk
        intro b hb
        rcases List.mem_cons.mp hb with rfl | hb2
        · exact fun he => hxk he.symm
        · exact keyIn_false k xs h b hb2

theorem distinctKeys_pairwise : ∀ l, distinctKeys l = true → l.Pairwise (· ≠ ·)
  | [] => fun _ => List.Pairwise.nil
  | k :: rest => fun h => by
      simp only [distinctKeys, Bool.and_eq_true, Bool.not_eq_true'] at h
      exact List.pairwise_cons.mpr
        ⟨keyIn_false k rest h.1, distinctKeys_pairwise rest h.2⟩

theorem pairwise_sortedStrict : ∀ l : List (List Nat),
    l.Pairwise (fun a b => lexLt a b = true) → sortedStrict l = true
  | [] => fun _ => rfl
  | [_] => fun _ => rfl
  | a :: b :: t => fun h => by
      rw [List.pairwise_cons] at h
      obtain ⟨ha, ht⟩ := h
      simp only [sortedStrict, Bool.and_eq_true]
      exact ⟨ha b (by simp), pairwise_sortedStrict (b :: t) ht⟩

theorem le32Bytes_length (n : Nat) : (le32Bytes n).length = 4 := rfl

theorem parse32_le32 (n : Nat) (h : n < 4294967296) :
    parse32 (le32Bytes n) = n := by
  simp [parse32, le32Bytes]
  omega

theorem readAt_length (b : List Nat) (p n : Nat) :
    (readAt b p n).length = min n (b.length - p) := by
  simp [readAt]

theorem readAt_append_left (l1 l2 : List Nat) (p n : Nat)
    (h : p + n ≤ l1.length) :
    readAt (l1 ++ l2) p n = readAt l1 p n := by
  unfold readAt
  rw [List.drop_append_eq_append_drop]
  have h1 : p - l1.length = 0 := by omega
  rw [h1, List.drop_zero, List.take_append_eq_append_take]
  have h2 : n - (l1.drop p).length = 0 := by
    simp only [List.length_drop]
    omega
  rw [h2, List.take_zero, List.append_nil]

theorem readAt_append_self (l1 l2 : List Nat) :
    readAt (l1 ++ l2) l1.length l2.length = l2 := by
  unfold readAt
  rw [List.drop_left, List.take_length]

theorem readAt_append_self' (l1 l2 : List Nat) (p n : Nat)
    (hp : l1.length = p) (hn : l2.length = n) :
    readAt (l1 ++ l2) p n = l2 := by
  subst hp hn
  exact readAt_append_self l1 l2

theorem readAt_patch (hdr rest : List Nat) (off n : Nat)
    (h9 : hdr.length = 9) (hoff : 9 ≤ off) :
    readAt (hdr ++ rest.drop 9) off n = readAt rest off n := by
  unfold readAt
  rw [List.drop_append_eq_append_drop, List.drop_eq_nil_of_le (by omega),
    List.nil_append, List.drop_drop, h9]
  congr 2
  omega

theorem getD_drop (l : List Nat) (n m : Nat) :
    (l.drop n).getD m 0 = l.getD (n + m) 0 := by
  simp [List.getD_eq_getElem?_getD, List.getElem?_drop]

theorem lookupC_append_some (c : List (List Nat × Nat)) (e : List Nat × Nat)
    (x : List Nat) (o : Nat) (h : lookupC c x = some o) :
    lookupC (c ++ [e]) x = some o := by
  induction c with
  | nil => simp [lookupC] at h
  | cons p rest ih =>
      simp only [lookupC, List.cons_append] at h ⊢
      split at h
      · simp [*]
      · simp [*, ih h]

theorem lookupC_append_none (c : List (List Nat × Nat)) (d : List Nat)
    (off : Nat) (x : List Nat) (h : lookupC c x = none) :
    lookupC (c ++ [(d, off)]) x = if d = x then some off else none := by
  induction c with
  | nil => simp [lookupC]
  | cons p rest ih =>
      simp only [lookupC, List.cons_append] at h ⊢
      split at h
      · exact absurd h (by simp)
      · simp [*, ih h]

theorem storeData_ok (d : List Nat) (s : St) (hs : Inv s) :
    Inv (storeData d s).2 ∧ 9 ≤ (storeData d s).1 ∧
    (storeData d s).1 + d.length ≤ (storeData d s).2.blob.length ∧
    readAt (storeData d s).2.blob (storeData d s).1 d.length = d ∧
    s.blob.length ≤ (storeData d s).2.blob.length ∧
    lookupC (storeData d s).2.cache d = some (storeData d s).1 := by
  unfold storeData
  rcases hs with ⟨hlen, hcache⟩
  cases h : lookupC s.cache d with
  | some off =>
      rcases hcache d off h with ⟨h1, h2, h3⟩
      exact ⟨⟨hlen, hcache⟩, h1, h2, h3, le_refl _, h⟩
  | none =>
      refine ⟨⟨by simp; omega, ?_⟩, by simp; omega, by simp, ?_, by simp, ?_⟩
      · intro x off hx
        simp only at hx
        cases hx0 : lookupC s.cache x with
        | some o =>
            rw [lookupC_append_some s.cache (d, s.blob.length) x o hx0] at hx
            have hoo : o = off := Option.some.inj hx
            rcases hcache x o hx0 with ⟨h1, h2, h3⟩
            rw [← hoo]
            refine ⟨h1, by simp; omega, ?_⟩
            rw [readAt_append_left s.blob d o x.length h2]
            exact h3
        | none =>
            rw [lookupC_append_none s.cache d s.blob.length x hx0] at hx
            by_cases hdx : d = x
            · subst hdx
              simp at hx
              subst hx
              refine ⟨hlen, by simp, ?_⟩
              exact readAt_append_self s.blob d
            · simp [hdx] at hx
      · exact readAt_append_self s.blob d
      · rw [lookupC_append_none s.cache d s.blob.length d h]
        simp

theorem packHdr_ok (f sz pt : Nat) (hf : f < 256) (hsz : sz < 4294967296)
    (hpt : pt < 4294967296) :
    packHdr f sz pt = .ok ([f] ++ le32Bytes sz ++ le32Bytes pt) := by
  unfold packHdr pack8 pack32
  rw [if_pos hf, if_pos hsz, if_pos hpt]

theorem pack8_ok (n : Nat) (l : List Nat) (h : pack8 n = .ok l) :
    l = [n] ∧ n < 256 := by
  unfold pack8 at h
  split at h
  · cases h; exact ⟨rfl, by assumption⟩
  · cases h

theorem pack32_ok (n : Nat) (l : List Nat) (h : pack32 n = .ok l) :
    l = le32Bytes n ∧ n < 4294967296 := by
  unfold pack32 at h
  split at h
  · cases h; exact ⟨rfl, by assumption⟩
  · cases h

theorem packHdr_length (f sz pt : Nat) (h : List Nat)
    (hk : packHdr f sz pt = .ok h) : h.length = 9 := by
  unfold packHdr at hk
  cases h1 : pack8 f with
  | error e => rw [h1] at hk; simp at hk
  | ok fb =>
      rw [h1] at hk
      cases h2 : pack32 sz with
      | error e => rw [h2] at hk; simp at hk
      | ok szb =>
          rw [h2] at hk
          cases h3 : pack32 pt with
          | error e => rw [h3] at hk; simp at hk
          | ok ptb =>
              rw [h3] at hk
              simp at hk
              subst hk
              rcases pack8_ok f fb h1 with ⟨e1, _⟩
              rcases pack32_ok sz szb h2 with ⟨e2, _⟩
              rcases pack32_ok pt ptb h3 with ⟨e3, _⟩
              subst e1 e2 e3
              simp [le32Bytes]

theorem scd_false (cfn : List Nat → List Nat) (d : List Nat) (s : St) :
    storeCompressedData false cfn d s = ((storeData d s).1, 0, (storeData d s).2) := by
  simp only [storeCompressedData]
  rw [if_neg (by simp)]

mutual

theorem createEntry_indep (cfn cfn' : List Nat → List Nat) :
    ∀ (t : Tree) (s : St),
    createEntry false cfn t s = createEntry false cfn' t s
  | Tree.file d, s => by
      unfold createEntry
      rw [scd_false cfn d s, scd_false cfn' d s]
  | Tree.dir cs, s => by
      unfold createEntry
      rw [createTable_indep cfn cfn' (sortChildren cs) s]
termination_by t => sizeOf t
decreasing_by
  simp only [sizeOf_sortChildren]
  simp

theorem createTable_indep (cfn cfn' : List Nat → List Nat) :
    ∀ (l : List (List Nat × Tree)) (s : St),
    createTable false cfn l s = createTable false cfn' l s
  | [], s => by
      unfold createTable
      rfl
  | (n, t) :: rest, s => by
      unfold createTable
      cases pack32 (storeData (utf8EncodeList n ++ [0]) s).1 with
      | error e => rfl
      | ok np =>
          rw [createEntry_indep cfn cfn' t (storeData (utf8EncodeList n ++ [0]) s).2]
          cases createEntry false cfn' t (storeData (utf8EncodeList n ++ [0]) s).2 with
          | error e => rfl
          | ok r =>
              obtain ⟨hdr, s2⟩ := r
              show (match createTable false cfn rest s2 with
                    | Except.error e => (Except.error e : Except CompErr (List Nat × St))
                    | Except.ok (tl, s3) => Except.ok (np ++ hdr ++ tl, s3)) =
                  (match createTable false cfn' rest s2 with
                    | Except.error e => (Except.error e : Except CompErr (List Nat × St))
                    | Except.ok (tl, s3) => Except.ok (np ++ hdr ++ tl, s3))
              rw [createTable_indep cfn cfn' rest s2]
termination_by l => sizeOf l
decreasing_by
  all_goals simp
  all_goals omega

end

theorem compile_indep (t : Tree) (cfn cfn' : List Nat → List Nat) :
    compile t false cfn = compile t false cfn' := by
  unfold compile compileRun
  rw [createEntry_indep cfn cfn' t ⟨placeholder, []⟩]

theorem storeCompressedData_inv (cp : Bool) (cfn : List Nat → List Nat)
    (d : List Nat) (s : St) (hs : Inv s) :
    Inv (storeCompressedData cp cfn d s).2.2 ∧
    s.blob.length ≤ (storeCompressedData cp cfn d s).2.2.blob.length := by
  simp only [storeCompressedData]
  split
  · exact ⟨(storeData_ok (cfn d) s hs).1, (storeData_ok (cfn d) s hs).2.2.2.2.1⟩
  · exact ⟨(storeData_ok d s hs).1, (storeData_ok d s hs).2.2.2.2.1⟩

mutual

theorem createEntry_inv (cp : Bool) (cfn : List Nat → List Nat) :
    ∀ (t : Tree) (s : St) (hdr : List Nat) (s' : St), Inv s →
    createEntry cp cfn t s = .ok (hdr, s') →
    Inv s' ∧ hdr.length = 9 ∧ s.blob.length ≤ s'.blob.length
  | Tree.file d, s, hdr, s', hs, h => by
      unfold createEntry at h
      split at h
      · simp at h
      · rename_i ph hp
        simp at h
        rcases h with ⟨h1, h2⟩
        subst h1 h2
        rcases storeCompressedData_inv cp cfn d s hs with ⟨hi, hl⟩
        exact ⟨hi, packHdr_length _ _ _ _ hp, hl⟩
  | Tree.dir cs, s, hdr, s', hs, h => by
      unfold createEntry at h
      split at h
      · simp at h
      · rename_i tbl s1 ht
        have h1 := createTable_inv cp cfn (sortChildren cs) s tbl s1 hs ht
        split at h
        · simp at h
        · rename_i ph hp
          simp at h
          rcases h with ⟨h2, h3⟩
          subst h2 h3
          have h4 := storeData_ok tbl s1 h1.1
          exact ⟨h4.1, packHdr_length _ _ _ _ hp,
            le_trans h1.2 h4.2.2.2.2.1⟩
termination_by t => sizeOf t
decreasing_by
  simp only [sizeOf_sortChildren]
  simp

theorem createTable_inv (cp : Bool) (cfn : List Nat → List Nat) :
    ∀ (l : List (List Nat × Tree)) (s : St) (tbl : List Nat) (s' : St), Inv s →
    createTable cp cfn l s = .ok (tbl, s') →
    Inv s' ∧ s.blob.length ≤ s'.blob.length
  | [], s, tbl, s', hs, h => by
      unfold createTable at h
      simp at h
      rcases h with ⟨h1, h2⟩
      subst h1 h2
      exact ⟨hs, le_refl _⟩
  | (n, t) :: rest, s, tbl, s', hs, h => by
      unfold createTable at h
      have hstore := storeData_ok (utf8EncodeList n ++ [0]) s hs
      split at h
      · simp at h
      · rename_i np hp
        split at h
        · simp at h
        · rename_i hdr s2 hc
          have h2 := createEntry_inv cp cfn t _ hdr s2 hstore.1 hc
          split at h
          · simp at h
          · rename_i tl s3 hr
            have h3 := createTable_inv cp cfn rest s2 tl s3 h2.1 hr
            simp at h
            rcases h with ⟨h4, h5⟩
            subst h5
            exact ⟨h3.1,
              le_trans hstore.2.2.2.2.1 (le_trans h2.2.2 h3.2)⟩
termination_by l => sizeOf l
decreasing_by
  all_goals simp
  all_goals omega

end

/-- C5: BlobCompiler.store_data is content-addressing.  On any state
satisfying the compiler invariant: the stored bytes are readable at the
returned offset; the cache maps the bytes to that offset; when the bytes
were not yet cached, the offset is the end of the buffer and the bytes
are appended (first store); when they were cached at `o`, the state is
returned unchanged and the offset is `o` (every subsequent store of
byte-equal data reuses the first offset and writes nothing).
`create_entry` routes file payloads (after the compression decision),
name strings and child tables uniformly through this function. -/
theorem claim_C5 (d : List Nat) (s : St) (hs : Inv s) (off : Nat) (s' : St)
    (h : storeData d s = (off, s')) :
    readAt s'.blob off d.length = d ∧
    lookupC s'.cache d = some off ∧
    (lookupC s.cache d = none → off = s.blob.length ∧ s'.blob = s.blob ++ d) ∧
    (∀ o, lookupC s.cache d = some o → off = o ∧ s' = s) ∧
    Inv s' := by
  have hsd := storeData_ok d s hs
  rw [h] at hsd
  refine ⟨hsd.2.2.2.1, hsd.2.2.2.2.2, ?_, ?_, hsd.1⟩
  · intro hnone
    unfold storeData at h
    rw [hnone] at h
    exact ⟨(Prod.mk.injEq _ _ _ _ ▸ h).1.symm ▸ rfl,
      by cases h; rfl⟩
  · intro o hsome
    unfold storeData at h
    rw [hsome] at h
    cases h
    exact ⟨rfl, rfl⟩

/-- C5 witness: on the concrete state reached after a first
`store_data(b"\x05\x06")`, storing the same two bytes again returns the
original offset 9, leaves the state untouched, and the bytes sit at
offset 9 of the buffer. -/
theorem claim_C5_witness :
    readAt (storeData [5, 6] stDup).2.blob (storeData [5, 6] stDup).1 2 = [5, 6] ∧
    (storeData [5, 6] stDup).1 = 9 ∧ (storeData [5, 6] stDup).2 = stDup := by
  have hInv : Inv stDup := by
    refine ⟨by simp [stDup, placeholder], ?_⟩
    intro d off h
    simp only [stDup, lookupC] at h
    split at h
    · rename_i hd
      cases h
      subst hd
      refine ⟨by omega, by simp [stDup, placeholder], by decide⟩
    · cases h
  have h := claim_C5 [5, 6] stDup hInv (storeData [5, 6] stDup).1
    (storeData [5, 6] stDup).2 rfl
  exact ⟨h.1, (h.2.2.2.1 9 rfl).1, (h.2.2.2.1 9 rfl).2⟩

/-- C4: BlobCompiler.store_compressed_data stores the compressed form and
returns the COMPRESSED (DEFLATE) flag exactly when compression is enabled
and the compressed form is strictly shorter than the original; otherwise
(equal lengths included) it stores the raw bytes and returns flags 0. -/
theorem claim_C4 (cp : Bool) (cfn : List Nat → List Nat) (d : List Nat)
    (s : St) (hs : Inv s) (off flags : Nat) (s' : St)
    (h : storeCompressedData cp cfn d s = (off, flags, s')) :
    (flags = DEFLATE ↔ cp = true ∧ (cfn d).length < d.length) ∧
    (flags = DEFLATE → readAt s'.blob off (cfn d).length = cfn d) ∧
    (¬(cp = true ∧ (cfn d).length < d.length) →
      flags = 0 ∧ readAt s'.blob off d.length = d) := by
  simp only [storeCompressedData] at h
  split at h
  · rename_i hcond
    have hsd := storeData_ok (cfn d) s hs
    cases h
    refine ⟨by simp [hcond], fun _ => hsd.2.2.2.1, fun hc => absurd hcond hc⟩
  · rename_i hcond
    have hsd := storeData_ok d s hs
    cases h
    refine ⟨by simp [DEFLATE, hcond], ?_, fun _ => ⟨rfl, hsd.2.2.2.1⟩⟩
    intro hfl
    exact absurd hfl (by simp [DEFLATE])

/-- C4 witness: on a fresh compiler with compression enabled and a codec
shrinking two bytes to one, the DEFLATE flag is returned and the
compressed byte sits at the returned offset. -/
theorem claim_C4_witness :
    (storeCompressedData true cfnOne [65, 65] ⟨placeholder, []⟩).2.1 = DEFLATE ∧
    readAt (storeCompressedData true cfnOne [65, 65] ⟨placeholder, []⟩).2.2.blob
      (storeCompressedData true cfnOne [65, 65] ⟨placeholder, []⟩).1 1 = [1] := by
  have hInv : Inv ⟨placeholder, []⟩ := by
    refine ⟨by simp [placeholder], ?_⟩
    intro d off h
    simp [lookupC] at h
  have h := claim_C4 true cfnOne [65, 65] ⟨placeholder, []⟩ hInv
    (storeCompressedData true cfnOne [65, 65] ⟨placeholder, []⟩).1
    (storeCompressedData true cfnOne [65, 65] ⟨placeholder, []⟩).2.1
    (storeCompressedData true cfnOne [65, 65] ⟨placeholder, []⟩).2.2 rfl
  have hfl : (storeCompressedData true cfnOne [65, 65] ⟨placeholder, []⟩).2.1 =
      DEFLATE := h.1.mpr ⟨rfl, by decide⟩
  exact ⟨hfl, h.2.1 hfl⟩

/-- C10: within one `compile` call on a fresh compiler, the buffer grows
append-only and only the nine reserved placeholder bytes are patched (the
returned blob agrees with the final buffer from offset 9 on and has the
same length), and every cache entry `data ↦ offset` is faithful in the
returned blob: `blob[offset : offset + len(data)] = data`, with every
offset at 9 or later. -/
theorem claim_C10 (t : Tree) (cp : Bool) (cfn : List Nat → List Nat)
    (blob : List Nat) (st : St)
    (h : compileRun t cp cfn = .ok (blob, st)) :
    blob.length = st.blob.length ∧
    (∀ i, 9 ≤ i → blob.getD i 0 = st.blob.getD i 0) ∧
    ∀ d off, lookupC st.cache d = some off →
      9 ≤ off ∧ off + d.length ≤ blob.length ∧ readAt blob off d.length = d := by
  unfold compileRun at h
  split at h
  · simp at h
  · rename_i hdr s1 hc
    simp at h
    rcases h with ⟨hb, hst⟩
    subst hst
    have hInv0 : Inv ⟨placeholder, []⟩ := by
      refine ⟨by simp [placeholder], ?_⟩
      intro d off hx
      simp [lookupC] at hx
    have hi := createEntry_inv cp cfn t _ hdr s1 hInv0 hc
    have hlen9 : hdr.length = 9 := hi.2.1
    have hst9 : 9 ≤ s1.blob.length := hi.1.1
    subst hb
    refine ⟨by simp [hlen9]; omega, ?_, ?_⟩
    · intro i hi9
      rw [List.getD_append_right _ _ _ _ (by omega), getD_drop, hlen9]
      congr 1
      omega
    · intro d off hx
      rcases hi.1.2 d off hx with ⟨h1, h2, h3⟩
      refine ⟨h1, by simp [hlen9]; omega, ?_⟩
      rw [readAt_patch hdr s1.blob off d.length hlen9 h1]
      exact h3

/-- C6: the compiler iterates each directory's children in ascending
byte-lexicographic order of the raw UTF-8 name bytes.  `create_entry`
builds the child table by walking `sortChildren` (the embedding of
Python's `sorted(entry.items())`), and for any children list with
distinct names (dict keys are distinct by construction) the sequence of
UTF-8 name byte strings laid down in the table is strictly ascending in
byte order. -/
theorem claim_C6 (cs : List (List Nat × Tree))
    (hd : distinctKeys (cs.map Prod.fst) = true) :
    sortedStrict ((sortChildren cs).map (fun p => utf8EncodeList p.1)) = true := by
  have hne : cs.Pairwise (fun a b => a.1 ≠ b.1) :=
    List.pairwise_map.mp (distinctKeys_pairwise _ hd)
  have hne2 : (sortChildren cs).Pairwise (fun a b => a.1 ≠ b.1) :=
    (List.Perm.pairwise_iff (fun hab => Ne.symm hab) (sortChildren_perm cs)).mpr hne
  have hle := sortChildren_pairwise cs
  have hstrict : (sortChildren cs).Pairwise (fun a b => lexLt a.1 b.1 = true) := by
    refine (hle.and hne2).imp ?_
    intro a b hab
    rcases lexLt_total a.1 b.1 hab.2 with h1 | h1
    · exact h1
    · simp [hab.1] at h1
  have hmap : ((sortChildren cs).map (fun p => utf8EncodeList p.1)).Pairwise
      (fun a b => lexLt a b = true) :=
    List.pairwise_map.mpr (hstrict.imp (fun h => encList_mono _ _ h))
  exact pairwise_sortedStrict _ hmap

/-- C6 witness: the two-child directory with names "b" and "a" is
iterated as "a" then "b", ascending in UTF-8 byte order. -/
theorem claim_C6_witness :
    sortedStrict ((sortChildren [([98], Tree.file [1]), ([97], Tree.file [2])]).map
      (fun p => utf8EncodeList p.1)) = true :=
  claim_C6 [([98], Tree.file [1]), ([97], Tree.file [2])] rfl

/-- C3: as amended — the loader does not bounds-check reads against the
blob length.  Whenever the 9-byte header read at `ptr` comes up short
(`ptr + ENTRY_SIZE` exceeds the blob length), `struct.unpack` raises
`struct.error`, not a `TruncatedBlob` (which does not exist in the
code). -/
theorem claim_C3 (blob : List Nat) (ptr fuel : Nat)
    (h : blob.length < ptr + ENTRY_SIZE) :
    loadEntry blob (fuel + 1) ptr = .error .structError := by
  simp only [loadEntry]
  rw [if_neg]
  rw [readAt_length]
  simp only [ENTRY_SIZE, PTR_SIZE] at h ⊢
  omega

/-- C3 counterexample: a 9-byte blob declaring an uncompressed file of
size 5 at offset 9.  Reading the 5 payload bytes would run past the end
of the blob, yet `load` succeeds and silently returns the empty byte
string — no read validation, no TruncatedBlob. -/
theorem claim_C3_cex : load blobShortFile = .ok (Tree.file []) := rfl

/-- C3 witness: loading an 8-byte input hits the short header read and
raises struct.error. -/
theorem claim_C3_witness : loadEntry blobEight 1000 0 = .error .structError :=
  claim_C3 blobEight 0 999 (by decide)

/-- Unpacking one entry header whose 9 bytes are explicitly
`flags :: size_le32 ++ ptr_le32`: the loader dispatches on the two
defined flag bits only. -/
theorem loadEntry_hdr (blob : List Nat) (f sz pt fuel ptr : Nat)
    (hb : readAt blob ptr ENTRY_SIZE = f :: (le32Bytes sz ++ le32Bytes pt))
    (hsz : sz < 4294967296) (hpt : pt < 4294967296) :
    loadEntry blob (fuel + 1) ptr =
      if f &&& IS_DIR ≠ 0 then
        (loadChildren blob (loadEntry blob fuel) sz pt []).map Tree.dir
      else if f &&& DEFLATE ≠ 0 then .error .nameError
      else .ok (Tree.file (readAt blob pt sz)) := by
  simp only [loadEntry]
  rw [hb]
  have hlen : (f :: (le32Bytes sz ++ le32Bytes pt)).length = ENTRY_SIZE := by
    simp [le32Bytes, ENTRY_SIZE, PTR_SIZE]
  rw [if_pos hlen]
  have h0 : (f :: (le32Bytes sz ++ le32Bytes pt)).getD 0 0 = f :=
    List.getD_cons_zero
  have h1 : readAt (f :: (le32Bytes sz ++ le32Bytes pt)) 1 4 = le32Bytes sz := by
    simp [readAt, le32Bytes]
  have h5 : readAt (f :: (le32Bytes sz ++ le32Bytes pt)) 5 4 = le32Bytes pt := by
    simp [readAt, le32Bytes]
  rw [h0, h1, h5, parse32_le32 sz hsz, parse32_le32 pt hpt]

/-- C7: as amended — the loader never validates reserved flag bits.  An
entry whose flags byte has IS_DIR and COMPRESSED clear is treated as a
plain uncompressed file whatever its other bits are: loading a raw
single-file blob with any such flags byte succeeds and returns the
payload, instead of failing with UnknownFlags (which does not exist in
the code). -/
theorem claim_C7 (f : Nat) (payload : List Nat)
    (hf1 : f &&& IS_DIR = 0) (hf2 : f &&& DEFLATE = 0)
    (hlen : payload.length < 4294967296) :
    load (rawFileBlob f payload) = .ok (Tree.file payload) := by
  have hassoc : rawFileBlob f payload =
      (f :: (le32Bytes payload.length ++ le32Bytes 9)) ++ payload := by
    simp [rawFileBlob]
  have hb : readAt (rawFileBlob f payload) 0 ENTRY_SIZE =
      f :: (le32Bytes payload.length ++ le32Bytes 9) := by
    rw [hassoc]
    unfold readAt
    rw [List.drop_zero, List.take_left' (by simp [le32Bytes, ENTRY_SIZE, PTR_SIZE])]
  have hstep := loadEntry_hdr (rawFileBlob f payload) f payload.length 9 999 0
    hb hlen (by norm_num)
  have hload : load (rawFileBlob f payload) =
      loadEntry (rawFileBlob f payload) (999 + 1) 0 := rfl
  rw [hload, hstep, if_neg (by simp [hf1]), if_neg (by simp [hf2])]
  have hpay : readAt (rawFileBlob f payload) 9 payload.length = payload := by
    rw [hassoc]
    exact readAt_append_self' _ _ 9 payload.length (by simp [le32Bytes]) rfl
  rw [hpay]

/-- C7 counterexample: a header with the reserved flag bit 2 set
(flags=4) is loaded without any UnknownFlags error: the loader returns
the (empty) file payload. -/
theorem claim_C7_cex : load blobFlag4 = .ok (Tree.file []) := rfl

/-- C7 witness: flags byte 4 (a reserved bit) on a one-byte file: load
succeeds and returns the payload. -/
theorem claim_C7_witness : load (rawFileBlob 4 [7]) = .ok (Tree.file [7]) :=
  claim_C7 4 [7] (by decide) (by decide) (by decide)

/-- First unfolding of `load_entry` on `selfRefBlob`: the root header is
a directory of size 1 whose child table is at offset 9. -/
theorem selfRef_step0 (n : Nat) :
    loadEntry selfRefBlob (n + 1) 0 =
      (loadChildren selfRefBlob (loadEntry selfRefBlob n) 1 9 []).map Tree.dir := rfl

/-- The child record of `selfRefBlob` resolves its (empty) name and then
recurses into the inline child header at offset 13. -/
theorem selfRef_step9 (n : Nat) :
    loadChildren selfRefBlob (loadEntry selfRefBlob n) 1 9 [] =
      match loadEntry selfRefBlob n 13 with
      | .error e => .error e
      | .ok child =>
          loadChildren selfRefBlob (loadEntry selfRefBlob n) 0 22 [([], child)] := rfl

/-- The inline child header at offset 13 of `selfRefBlob` is the same
directory header again, so the loader recurses forever. -/
theorem selfRef_step13 (n : Nat) :
    loadEntry selfRefBlob (n + 1) 13 =
      (loadChildren selfRefBlob (loadEntry selfRefBlob n) 1 9 []).map Tree.dir := rfl

theorem selfRef_all (fuel : Nat) :
    loadEntry selfRefBlob fuel 0 = .error .recursionError ∧
    loadEntry selfRefBlob fuel 13 = .error .recursionError := by
  induction fuel with
  | zero => exact ⟨rfl, rfl⟩
  | succ n ih =>
      refine ⟨?_, ?_⟩
      · rw [selfRef_step0 n, selfRef_step9 n, ih.2]
        rfl
      · rw [selfRef_step13 n, selfRef_step9 n, ih.2]
        rfl

/-- C2: as amended — the loader's recursion on self-referential
directory tables is bounded only by the interpreter stack: on the
22-byte self-referential blob, whatever stack budget the interpreter has,
`load_entry` exhausts it and CPython raises RecursionError, never a
structured DepthExceeded (which does not exist in the code). -/
theorem claim_C2 : ∀ fuel, loadEntry selfRefBlob fuel 0 = .error .recursionError :=
  fun fuel => (selfRef_all fuel).1

/-- C2 counterexample: a 22-byte blob whose single child name pointer is
the blob length, so `load_string` starts scanning at the end of the blob
and never finds a 0x00 terminator: `read(1)` returns the empty byte
string forever, and `load` loops forever instead of returning a tree or
raising a structured error (the `divergence` marker records exactly this
infinite loop). -/
theorem claim_C2_cex :
    blobNoTerm.length = 22 ∧ load blobNoTerm = .error .divergence :=
  ⟨rfl, rfl⟩

/-- C2 witness: at CPython's default stack budget of 1000, loading the
self-referential blob raises RecursionError. -/
theorem claim_C2_witness :
    loadEntry selfRefBlob pyRecursionLimit 0 = .error .recursionError :=
  claim_C2 pyRecursionLimit

/-- The emitted blob for a compressible root file with compression
enabled: the payload is stored in compressed form at offset 9 with the
DEFLATE flag in the root header. -/
theorem compile_file_deflate (payload : List Nat) (cfn : List Nat → List Nat)
    (hz : (cfn payload).length < payload.length)
    (hlen : payload.length < 4294967296) :
    compile (Tree.file payload) true cfn =
      .ok (([2] ++ le32Bytes payload.length ++ le32Bytes 9) ++ cfn payload) := by
  unfold compile compileRun createEntry storeCompressedData storeData
  rw [if_pos ⟨rfl, hz⟩]
  simp only [lookupC]
  have hploc : (⟨placeholder, []⟩ : St).blob.length = 9 := by
    simp [placeholder]
  rw [hploc]
  rw [packHdr_ok DEFLATE payload.length 9 (by decide) hlen (by norm_num)]
  rfl

/-- The emitted blob for a root file with compression disabled: the raw
payload at offset 9 and a flags=0 header. -/
theorem compile_file_raw (payload : List Nat) (cfn : List Nat → List Nat)
    (hlen : payload.length < 4294967296) :
    compile (Tree.file payload) false cfn =
      .ok (([0] ++ le32Bytes payload.length ++ le32Bytes 9) ++ payload) := by
  unfold compile compileRun createEntry
  rw [scd_false cfn payload ⟨placeholder, []⟩]
  unfold storeData
  simp only [lookupC]
  have hploc : (⟨placeholder, []⟩ : St).blob.length = 9 := by
    simp [placeholder]
  rw [hploc]
  rw [packHdr_ok 0 payload.length 9 (by decide) hlen (by norm_num)]
  rfl

/-- The round-trip does hold on the uncompressed path: loading the blob
compiled from a root file with compress=false recovers the payload
byte-for-byte. -/
theorem load_compile_file_raw (payload : List Nat) (cfn : List Nat → List Nat)
    (blob : List Nat) (hlen : payload.length < 4294967296)
    (hc : compile (Tree.file payload) false cfn = .ok blob) :
    load blob = .ok (Tree.file payload) := by
  rw [compile_file_raw payload cfn hlen] at hc
  have hb : blob = ([0] ++ le32Bytes payload.length ++ le32Bytes 9) ++ payload :=
    (Except.ok.inj hc).symm
  subst hb
  have hread : readAt (([0] ++ le32Bytes payload.length ++ le32Bytes 9) ++ payload)
      0 ENTRY_SIZE = 0 :: (le32Bytes payload.length ++ le32Bytes 9) := by
    unfold readAt
    rw [List.drop_zero, List.take_left' (by simp [le32Bytes, ENTRY_SIZE, PTR_SIZE])]
    simp
  have hstep := loadEntry_hdr _ 0 payload.length 9 999 0 hread hlen (by norm_num)
  have hload : load (([0] ++ le32Bytes payload.length ++ le32Bytes 9) ++ payload) =
      loadEntry (([0] ++ le32Bytes payload.length ++ le32Bytes 9) ++ payload)
        (999 + 1) 0 := rfl
  rw [hload, hstep, if_neg (by simp), if_neg (by simp)]
  have hpay : readAt (([0] ++ le32Bytes payload.length ++ le32Bytes 9) ++ payload)
      9 payload.length = payload := by
    refine readAt_append_self' _ _ 9 payload.length ?_ rfl
    simp [le32Bytes]
  rw [hpay]

/-- C1: the round-trip breaks on the compressed path.  For any payload
that the codec strictly shrinks (as zlib does for File(b"A"*1024)),
compiling with compress=true emits a blob whose root file entry carries
the DEFLATE flag, and `load` of that blob reaches the `gzip.GzipFile`
call of impl.py's load_entry — a NameError, since impl.py never imports
`gzip` (and the payload is zlib-format, which a gzip reader could not
parse anyway).  The claim's `load(compile(T, true)) == T` therefore fails
on the code. -/
theorem claim_C1 (payload : List Nat) (cfn : List Nat → List Nat)
    (blob : List Nat)
    (hz : (cfn payload).length < payload.length)
    (hlen : payload.length < 4294967296)
    (hc : compile (Tree.file payload) true cfn = .ok blob) :
    load blob = .error .nameError := by
  rw [compile_file_deflate payload cfn hz hlen] at hc
  have hb : blob = ([2] ++ le32Bytes payload.length ++ le32Bytes 9) ++ cfn payload :=
    (Except.ok.inj hc).symm
  subst hb
  have hread : readAt (([2] ++ le32Bytes payload.length ++ le32Bytes 9) ++ cfn payload)
      0 ENTRY_SIZE = 2 :: (le32Bytes payload.length ++ le32Bytes 9) := by
    unfold readAt
    rw [List.drop_zero, List.take_left' (by simp [le32Bytes, ENTRY_SIZE, PTR_SIZE])]
    simp
  have hstep := loadEntry_hdr _ 2 payload.length 9 999 0 hread hlen (by norm_num)
  have hload : load (([2] ++ le32Bytes payload.length ++ le32Bytes 9) ++ cfn payload) =
      loadEntry (([2] ++ le32Bytes payload.length ++ le32Bytes 9) ++ cfn payload)
        (999 + 1) 0 := rfl
  rw [hload, hstep]
  rfl

unseal createEntry createTable in
/-- C1 witness: with the stand-in codec that shrinks the two-byte payload
to nothing, compile emits the 9-byte DEFLATE blob and load fails with the
NameError of the missing gzip import. -/
theorem claim_C1_witness : load [2, 2, 0, 0, 0, 9, 0, 0, 0] = .error .nameError :=
  claim_C1 [65, 65] cfnEmpty [2, 2, 0, 0, 0, 9, 0, 0, 0] (by decide) (by decide) rfl

unseal createEntry createTable in
/-- C8: as amended — compile performs no name validation.  A child name
consisting of the single code point 0 is encoded as its UTF-8 byte 0x00
plus the 0x00 terminator and a blob is emitted; no InvalidName error
exists in the code (the loader would later truncate such a name at its
first null byte). -/
theorem claim_C8 (cfn : List Nat → List Nat) :
    compile treeNul false cfn = .ok blobNul :=
  (compile_indep treeNul cfn cfnId).trans rfl

unseal createEntry createTable in
/-- C8 counterexample: compiling Dir({"\x00": File(b"")}) succeeds and
returns a complete blob instead of failing with InvalidName. -/
theorem claim_C8_cex : compile treeNul false cfnId = .ok blobNul := rfl

/-- C8 witness: the amended statement instantiated at a concrete
codec. -/
theorem claim_C8_witness : compile treeNul false cfnOne = .ok blobNul :=
  claim_C8 cfnOne

unseal createEntry createTable in
/-- C9: as amended — the emitted blob for Dir({"a": File(b"")}) with
compress=false stores the name bytes "a\0" first (offsets 9-10) and the
child table after them, so the root header is flags=1, size=1, ptr=11,
and the 13-byte child record sits at offset 11 with name_ptr=9 and
inline child header flags=0, size=0, ptr=11. -/
theorem claim_C9 (cfn : List Nat → List Nat) :
    compile treeA false cfn = .ok blobA :=
  (compile_indep treeA cfn cfnId).trans rfl

unseal createEntry createTable in
/-- C9 counterexample: the root header of the blob actually emitted for
Dir({"a": File(b"")}) has its ptr field equal to 11, not 9 as the claim
states, and offset 9 holds the name bytes rather than a child record. -/
theorem claim_C9_cex :
    compile treeA false cfnId = .ok blobA ∧ readAt blobA 5 4 ≠ le32Bytes 9 :=
  ⟨rfl, by decide⟩

/-- C9 witness: the amended statement instantiated at a concrete
codec. -/
theorem claim_C9_witness : compile treeA false cfnOne = .ok blobA :=
  claim_C9 cfnOne

/-- Loading the blob compiled from Dir({"a": File(b"")}) recovers the
tree exactly: the uncompressed round-trip works on this directory. -/
theorem load_blobA : load blobA = .ok (Tree.dir [([97], Tree.file [])]) := rfl

unseal createEntry createTable in
/-- C10 witness: compiling Dir({"a": File(b"")}) caches the name string
"a\0" at offset 9, and those bytes indeed sit at offset 9 of the
returned blob. -/
theorem claim_C10_witness : readAt blobA 9 2 = [97, 0] := by
  have h := claim_C10 treeA false cfnId blobA stA rfl
  exact (h.2.2 [97, 0] 9 rfl).2.2

end BlobFS
